import Mathlib

/-!
# Verification of the esmofamil game server core (`src/server.js`)

Shallow embedding of the room/round state machine and the scoring engine of
`src/server.js`.  JavaScript `Map`s are embedded as insertion-ordered
association lists (`mget` / `mset` / `mdel` mirror `Map.get` / `Map.set` /
`Map.delete`); socket ids, room codes, category labels and answers are
strings; timestamps are naturals; the stored timeout handle (`room.timer`)
is embedded as a `Bool` recording whether a handle is currently stored.
Randomness (`Math.random` in `makeRoomCode` / the letter draw) and the clock
(`Date.now`) are passed in as explicit parameters.
-/

namespace Esmofamil

/-- `Map.get k`: first binding of `k` in the association list, if any. -/
def mget {α β : Type} [DecidableEq α] : List (α × β) → α → Option β
  | [], _ => none
  | (a, b) :: rest, k => if a = k then some b else mget rest k

/-- `Map.set k v`: replace the binding of `k` in place if present
(JS `Map.set` keeps the original insertion position), else append. -/
def mset {α β : Type} [DecidableEq α] : List (α × β) → α → β → List (α × β)
  | [], k, v => [(k, v)]
  | (a, b) :: rest, k, v =>
      if a = k then (k, v) :: rest else (a, b) :: mset rest k v

/-- `Map.delete k`: remove the binding of `k`. -/
def mdel {α β : Type} [DecidableEq α] : List (α × β) → α → List (α × β)
  | [], _ => []
  | (a, b) :: rest, k => if a = k then mdel rest k else (a, b) :: mdel rest k

/-- `Map.has k`. -/
def mhas {α β : Type} [DecidableEq α] (m : List (α × β)) (k : α) : Bool :=
  (mget m k).isSome

/-- The keys of a map, in insertion order. -/
def mkeys {α β : Type} (m : List (α × β)) : List α := m.map Prod.fst

/-! ## Scoring engine (`normalizeAnswer`, `computeRoundScores`) -/

/-- A player id (socket id). -/
abbrev Pid := String

/-- One player's per-category answers: the JS object `{ [cat]: answer }`. -/
abbrev Answers := List (String × String)

/-- `const DEFAULT_DURATION_SEC = 120`. -/
def DEFAULT_DURATION_SEC : Nat := 120

/-- `const DEFAULT_CATEGORIES = [...]`. -/
def DEFAULT_CATEGORIES : List String :=
  ["name", "family", "city", "country", "animal",
   "food", "fruit", "object", "color", "job"]

/-- Whitespace for the purposes of JS `String.prototype.trim`. -/
def isWS (c : Char) : Bool :=
  c = ' ' || c = '\t' || c = '\n' || c = '\r'

/-- JS `.trim()`: strip leading and trailing whitespace. -/
def jsTrim (s : String) : String :=
  String.mk (((s.data.dropWhile isWS).reverse.dropWhile isWS).reverse)

/-- JS `.toLowerCase()` (ASCII case-fold). -/
def jsToLower (s : String) : String :=
  String.mk (s.data.map (fun c =>
    if 'A' ≤ c && c ≤ 'Z' then Char.ofNat (c.toNat + 32) else c))

/-- JS `.toUpperCase()` (ASCII). -/
def jsToUpper (s : String) : String :=
  String.mk (s.data.map (fun c =>
    if 'a' ≤ c && c ≤ 'z' then Char.ofNat (c.toNat - 32) else c))

/-- `normalizeAnswer(v)`: `String(v ?? "").trim().toLowerCase()`.
The argument is `answers?.[cat]`, hence an `Option`. -/
def normalizeAnswer (v : Option String) : String :=
  jsToLower (jsTrim (v.getD ""))

/-- One step of the `counts` accumulation loop inside `computeRoundScores`:
skip empty normalized answers, otherwise
`counts.set(norm, (counts.get(norm) || 0) + 1)`. -/
def countStep (cat : String) (cnts : List (String × Nat)) (p : Pid × Answers) :
    List (String × Nat) :=
  let norm := normalizeAnswer (mget p.2 cat)
  if norm = "" then cnts else mset cnts norm ((mget cnts norm).getD 0 + 1)

/-- One step of the point-award loop inside `computeRoundScores`:
`pts = !norm ? 0 : (counts.get(norm) >= 2 ? 10 : 20)`;
`roundScores.set(pid, (roundScores.get(pid) || 0) + pts)`. -/
def scoreStep (counts : List (String × Nat)) (cat : String)
    (rs : List (Pid × Nat)) (p : Pid × Answers) : List (Pid × Nat) :=
  let norm := normalizeAnswer (mget p.2 cat)
  let pts := if norm = "" then 0 else if 2 ≤ (mget counts norm).getD 0 then 10 else 20
  mset rs p.1 ((mget rs p.1).getD 0 + pts)

/-- The body of `for (const cat of categories)` in `computeRoundScores`. -/
def catStep (subs : List (Pid × Answers)) (rs : List (Pid × Nat)) (cat : String) :
    List (Pid × Nat) :=
  let counts := subs.foldl (countStep cat) []
  subs.foldl (scoreStep counts cat) rs

/-- `for (const pid of submissions.keys()) roundScores.set(pid, 0)`. -/
def initScores (subs : List (Pid × Answers)) : List (Pid × Nat) :=
  subs.foldl (fun acc p => mset acc p.1 0) []

/-- `computeRoundScores(submissions, categories)`. -/
def computeRoundScores (subs : List (Pid × Answers)) (cats : List String) :
    List (Pid × Nat) :=
  cats.foldl (catStep subs) (initScores subs)

/-- Number of submissions whose normalized answer for `cat` equals `n`
(used to state what the `counts` map computes). -/
def countNorm (subs : List (Pid × Answers)) (cat : String) (n : String) : Nat :=
  subs.countP (fun p => normalizeAnswer (mget p.2 cat) == n)

/-- The points one player's answers earn for one category, stated against the
whole submission list. -/
def catPoints (subs : List (Pid × Answers)) (cat : String) (a : Answers) : Nat :=
  let norm := normalizeAnswer (mget a cat)
  if norm = "" then 0 else if 2 ≤ countNorm subs cat norm then 10 else 20

/-! ## Room state and operations -/

/-- Result codes reported to the requesting socket via the `cb` callback
(`ROOM_NOT_FOUND`, `NOT_HOST`, `NOT_PLAYING`) or success. -/
inductive Res where
  | ok
  | roomNotFound
  | notHost
  | notPlaying
deriving Repr, DecidableEq

/-- One room's state (the object built by `ensureRoom`).  `timer : Bool`
records whether a timeout handle is currently stored in `room.timer`. -/
structure Room where
  code : String
  hostSocketId : Option Pid
  status : String
  round : Nat
  letter : String
  endsAt : Option Nat
  durationSec : Nat
  categories : List String
  players : List (Pid × String)
  submissions : List (Pid × Answers)
  totalScores : List (Pid × Nat)
  timer : Bool
deriving Repr, DecidableEq

/-- The registry `rooms = new Map()`, keyed by room code. -/
abbrev Rooms := List (String × Room)

/-- The fresh room state installed by `ensureRoom` for an unknown code. -/
def freshRoom (code : String) : Room :=
  { code := code
    hostSocketId := none
    status := "lobby"
    round := 0
    letter := ""
    endsAt := none
    durationSec := DEFAULT_DURATION_SEC
    categories := DEFAULT_CATEGORIES
    players := []
    submissions := []
    totalScores := []
    timer := false }

/-- `String(name || "Player").slice(0, 20)`. -/
def clampName (name : String) : String :=
  (if name = "" then "Player" else name).take 20

/-- `String(code || "").toUpperCase().trim()` — the code normalization every
handler performs before the registry lookup. -/
def normCode (code : String) : String := jsTrim (jsToUpper code)

/-- `Number(durationSec || DEFAULT_DURATION_SEC)` for a numeric or missing
input (`0` and `undefined` are falsy). -/
def durationOrDefault (durationSec : Option Nat) : Nat :=
  match durationSec with
  | none => DEFAULT_DURATION_SEC
  | some 0 => DEFAULT_DURATION_SEC
  | some d => d

/-- `startRound(room, durationSec)`: clears submissions, sets status
`"playing"`, bumps `round`, clamps the duration, draws a letter, sets
`endsAt = now + durationSec*1000`, clears any pending timer and arms a fresh
one.  The random letter draw and `Date.now()` are explicit parameters. -/
def startRound (room : Room) (durationSec : Option Nat) (letter : String)
    (now : Nat) : Room :=
  let dur := max DEFAULT_DURATION_SEC (durationOrDefault durationSec)
  { room with
    submissions := []
    status := "playing"
    round := room.round + 1
    durationSec := dur
    letter := letter
    endsAt := some (now + dur * 1000)
    timer := true }

/-- `for (const [pid, pts] of roundScores) totalScores.set(pid, (get || 0) + pts)`. -/
def foldTotals (totals : List (Pid × Nat)) (roundScores : List (Pid × Nat)) :
    List (Pid × Nat) :=
  roundScores.foldl (fun ts p => mset ts p.1 ((mget ts p.1).getD 0 + p.2)) totals

/-- `endRound(room)`: a no-op unless `status === "playing"`; otherwise sets
status `"lobby"`, clears `endsAt`, computes the round scores and folds them
into `totalScores`.  Note: it does **not** touch `room.timer`. -/
def endRound (room : Room) : Room :=
  if room.status ≠ "playing" then room
  else
    { room with
      status := "lobby"
      endsAt := none
      totalScores :=
        foldTotals room.totalScores
          (computeRoundScores room.submissions room.categories) }

/-- The room mutation in the `room:create` / `room:join` handlers:
`players.set(id, {name})`; `if (!totalScores.has(id)) totalScores.set(id, 0)`. -/
def addPlayer (room : Room) (sid : Pid) (name : String) : Room :=
  { room with
    players := mset room.players sid (clampName name)
    totalScores :=
      if (mget room.totalScores sid).isSome then room.totalScores
      else mset room.totalScores sid 0 }

/-- The room-level part of the `submit` handler: reject unless
`status === "playing"`, otherwise build `safe` over `room.categories`
(`safe[cat] = String(answers?.[cat] ?? "")`) and store it under the
sender's socket id. -/
def submitRoom (room : Room) (sid : Pid) (answers : Answers) : Room × Res :=
  if room.status ≠ "playing" then (room, Res.notPlaying)
  else
    let safe := room.categories.map (fun cat => (cat, (mget answers cat).getD ""))
    ({ room with submissions := mset room.submissions sid safe }, Res.ok)

/-- The `room:create` handler: `ensureRoom(makeRoomCode())`, then install the
requester as host and player (the random code is a parameter). -/
def roomCreateHandler (rooms : Rooms) (sid : Pid) (code : String)
    (name : String) : Rooms :=
  let room := (mget rooms code).getD (freshRoom code)
  let rooms := if (mget rooms code).isSome then rooms else mset rooms code (freshRoom code)
  mset rooms code (addPlayer { room with hostSocketId := some sid } sid name)

/-- The `room:join` handler. -/
def roomJoinHandler (rooms : Rooms) (sid : Pid) (code : String)
    (name : String) : Rooms × Res :=
  let c := normCode code
  match mget rooms c with
  | none => (rooms, Res.roomNotFound)
  | some room => (mset rooms c (addPlayer room sid name), Res.ok)

/-- The `round:start` handler: unknown code → `ROOM_NOT_FOUND`; non-host →
`NOT_HOST`; otherwise `startRound` (no status check). -/
def roundStartHandler (rooms : Rooms) (sid : Pid) (code : String)
    (durationSec : Option Nat) (letter : String) (now : Nat) : Rooms × Res :=
  let c := normCode code
  match mget rooms c with
  | none => (rooms, Res.roomNotFound)
  | some room =>
      if room.hostSocketId ≠ some sid then (rooms, Res.notHost)
      else (mset rooms c (startRound room durationSec letter now), Res.ok)

/-- The `round:end` handler: unknown code → `ROOM_NOT_FOUND`; non-host →
`NOT_HOST`; otherwise `endRound`. -/
def roundEndHandler (rooms : Rooms) (sid : Pid) (code : String) : Rooms × Res :=
  let c := normCode code
  match mget rooms c with
  | none => (rooms, Res.roomNotFound)
  | some room =>
      if room.hostSocketId ≠ some sid then (rooms, Res.notHost)
      else (mset rooms c (endRound room), Res.ok)

/-- The `submit` handler: unknown code → `ROOM_NOT_FOUND`; else the
room-level `submitRoom` (which rejects when not playing). -/
def submitHandler (rooms : Rooms) (sid : Pid) (code : String)
    (answers : Answers) : Rooms × Res :=
  let c := normCode code
  match mget rooms c with
  | none => (rooms, Res.roomNotFound)
  | some room =>
      match submitRoom room sid answers with
      | (_, Res.notPlaying) => (rooms, Res.notPlaying)
      | (r, _) => (mset rooms c r, Res.ok)

/-- The per-room mutation of the `disconnect` handler, for a room that
contains the departing socket: delete it from `players`, `submissions` and
`totalScores`; if it was the host, the new host is the first remaining key
of `players` (or null). -/
def disconnectRoom (room : Room) (sid : Pid) : Room :=
  let players := mdel room.players sid
  let room :=
    { room with
      players := players
      submissions := mdel room.submissions sid
      totalScores := mdel room.totalScores sid }
  if room.hostSocketId = some sid then
    { room with hostSocketId := players.head?.map Prod.fst }
  else room

/-- The `disconnect` handler: walk every room, skipping rooms that do not
contain the socket; rooms left with no players are destroyed
(`if (room.timer) clearTimeout(room.timer); rooms.delete(code)`), the rest
keep their updated state.  The second component collects the codes whose
timer was cleared. -/
def disconnectHandler : Rooms → Pid → Rooms × List String
  | [], _ => ([], [])
  | (c, rm) :: rest, sid =>
      let acc := disconnectHandler rest sid
      if mhas rm.players sid then
        let r := disconnectRoom rm sid
        if r.players.isEmpty then
          (acc.1, (if r.timer then [c] else []) ++ acc.2)
        else ((c, r) :: acc.1, acc.2)
      else ((c, rm) :: acc.1, acc.2)

/-! ## Sample data used by witnesses and counterexamples -/

/-- A one-player room in mid-round (host `h`, playing, timer armed). -/
def sampleRoom : Room :=
  { code := "AB2CD"
    hostSocketId := some "h"
    status := "playing"
    round := 1
    letter := "ب"
    endsAt := some 1000
    durationSec := 120
    categories := ["city"]
    players := [("h", "H")]
    submissions := []
    totalScores := [("h", 0)]
    timer := true }

/-- A registry holding just `sampleRoom`. -/
def sampleRooms : Rooms := [("AB2CD", sampleRoom)]

/-- A two-player playing room hosted by `h` with accumulated scores. -/
def roomHB : Room :=
  { code := "AB2CD"
    hostSocketId := some "h"
    status := "playing"
    round := 2
    letter := "س"
    endsAt := some 2000
    durationSec := 120
    categories := ["city"]
    players := [("h", "H"), ("b", "B")]
    submissions := [("h", [("city", "x")])]
    totalScores := [("h", 30), ("b", 5)]
    timer := true }

/-- The invariant `status == "playing" ↔ endsAt ≠ null` (the part of the
spec's deadline invariant that the code maintains). -/
def statusDeadlineInv (r : Room) : Prop :=
  r.status = "playing" ↔ r.endsAt ≠ none

/-! ## Association-list lemmas -/

theorem mget_mset {α β : Type} [DecidableEq α] (m : List (α × β)) (k : α) (v : β)
    (k' : α) : mget (mset m k v) k' = if k = k' then some v else mget m k' := by
  induction m with
  | nil => simp [mset, mget]
  | cons p rest ih =>
      obtain ⟨a, b⟩ := p
      by_cases hak : a = k <;> by_cases hkk' : k = k' <;>
        simp_all [mset, mget]

theorem mget_mdel {α β : Type} [DecidableEq α] (m : List (α × β)) (k k' : α) :
    mget (mdel m k) k' = if k = k' then none else mget m k' := by
  induction m with
  | nil => simp [mdel, mget]
  | cons p rest ih =>
      obtain ⟨a, b⟩ := p
      by_cases hak : a = k <;> by_cases hkk' : k = k' <;> by_cases hk' : a = k' <;>
        simp_all [mdel, mget]

theorem mget_eq_none_of_not_mem_keys {α β : Type} [DecidableEq α]
    (m : List (α × β)) (k : α) (h : k ∉ mkeys m) : mget m k = none := by
  induction m with
  | nil => rfl
  | cons p rest ih =>
      obtain ⟨a, b⟩ := p
      simp only [mkeys, List.map_cons, List.mem_cons] at h
      push_neg at h
      simp only [mget, if_neg (Ne.symm h.1)]
      exact ih h.2

theorem mem_keys_of_mget_eq_some {α β : Type} [DecidableEq α]
    {m : List (α × β)} {k : α} {v : β} (h : mget m k = some v) : k ∈ mkeys m := by
  by_contra hk
  rw [mget_eq_none_of_not_mem_keys m k hk] at h
  exact Option.noConfusion h

theorem mem_of_mget_eq_some {α β : Type} [DecidableEq α]
    {m : List (α × β)} {k : α} {v : β} (h : mget m k = some v) : (k, v) ∈ m := by
  induction m with
  | nil => simp [mget] at h
  | cons p rest ih =>
      obtain ⟨a, b⟩ := p
      simp only [mget] at h
      by_cases ha : a = k
      · rw [if_pos ha] at h
        subst ha
        simp_all
      · rw [if_neg ha] at h
        exact List.mem_cons_of_mem _ (ih h)

theorem mget_eq_some_of_mem {α β : Type} [DecidableEq α]
    {m : List (α × β)} {k : α} {v : β} (hnd : (mkeys m).Nodup)
    (h : (k, v) ∈ m) : mget m k = some v := by
  induction m with
  | nil => simp at h
  | cons p rest ih =>
      obtain ⟨a, b⟩ := p
      simp only [mkeys, List.map_cons, List.nodup_cons] at hnd
      rcases List.mem_cons.mp h with h | h
      · rw [Prod.mk.injEq] at h
        simp [mget, h.1, h.2]
      · have hk : a ≠ k := by
          intro he
          exact hnd.1 (he ▸ (List.mem_map.mpr ⟨(k, v), h, rfl⟩))
        simp only [mget, if_neg hk]
        exact ih hnd.2 h

/-- Over nodup keys, `mget` is invariant under permutation of the entries. -/
theorem mget_perm {α β : Type} [DecidableEq α] {m₁ m₂ : List (α × β)}
    (hp : m₁.Perm m₂) (hnd : (mkeys m₁).Nodup) (k : α) :
    mget m₁ k = mget m₂ k := by
  have hnd₂ : (mkeys m₂).Nodup := ((hp.map Prod.fst).nodup_iff).mp hnd
  cases h : mget m₁ k with
  | none =>
      cases h₂ : mget m₂ k with
      | none => rfl
      | some v =>
          have hm₂ : (k, v) ∈ m₂ := mem_of_mget_eq_some h₂
          have hm₁ : (k, v) ∈ m₁ := hp.symm.subset hm₂
          have := mget_eq_some_of_mem hnd hm₁
          rw [h] at this
          exact Option.noConfusion this
  | some v =>
      have hm₁ : (k, v) ∈ m₁ := mem_of_mget_eq_some h
      exact (mget_eq_some_of_mem hnd₂ (hp.subset hm₁)).symm

theorem mget_isSome_of_mem_keys {α β : Type} [DecidableEq α]
    {m : List (α × β)} {k : α} (h : k ∈ mkeys m) : (mget m k).isSome := by
  induction m with
  | nil => simp [mkeys] at h
  | cons p rest ih =>
      obtain ⟨a, b⟩ := p
      by_cases ha : a = k
      · simp [mget, ha]
      · simp only [mkeys, List.map_cons, List.mem_cons] at h
        rcases h with h | h
        · exact absurd h.symm ha
        · simp only [mget, if_neg ha]
          exact ih h

/-! ## Scoring engine lemmas -/

/-- The `counts` loop computes, for every non-empty normalized answer `n`,
the number of submissions normalizing to `n`. -/
theorem countsFold_getD (subs : List (Pid × Answers)) (cat : String)
    (acc : List (String × Nat)) (n : String) (hn : n ≠ "") :
    (mget (subs.foldl (countStep cat) acc) n).getD 0
      = (mget acc n).getD 0 + countNorm subs cat n := by
  induction subs generalizing acc with
  | nil => simp [countNorm]
  | cons p rest ih =>
      rw [List.foldl_cons, ih]
      have hstep : (mget (countStep cat acc p) n).getD 0
          = (mget acc n).getD 0
            + (if normalizeAnswer (mget p.2 cat) == n then 1 else 0) := by
        by_cases hemp : normalizeAnswer (mget p.2 cat) = ""
        · have h2 : (normalizeAnswer (mget p.2 cat) == n) = false := by
            rw [hemp, beq_eq_false_iff_ne]
            exact fun he => hn he.symm
          simp only [countStep]
          rw [if_pos hemp, h2]
          simp
        · by_cases heq : normalizeAnswer (mget p.2 cat) = n
          · simp [countStep, hemp, heq, mget_mset, hn]
          · have h2 : (normalizeAnswer (mget p.2 cat) == n) = false := by
              simp [heq]
            simp [countStep, hemp, heq, h2, mget_mset]
      rw [hstep]
      simp only [countNorm, List.countP_cons]
      omega

/-- The point-award loop does not touch ids outside the submission keys. -/
theorem scoreFold_not_mem (subs : List (Pid × Answers))
    (counts : List (String × Nat)) (cat : String) (rs : List (Pid × Nat))
    (pid : Pid) (h : pid ∉ mkeys subs) :
    mget (subs.foldl (scoreStep counts cat) rs) pid = mget rs pid := by
  induction subs generalizing rs with
  | nil => rfl
  | cons p rest ih =>
      simp only [mkeys, List.map_cons, List.mem_cons] at h
      push_neg at h
      rw [List.foldl_cons, ih _ h.2]
      simp only [scoreStep, mget_mset]
      rw [if_neg (fun he => h.1 he.symm)]

/-- The point-award loop adds exactly one category's points to one player's
running total. -/
theorem scoreFold_mem (subs : List (Pid × Answers))
    (counts : List (String × Nat)) (cat : String) (rs : List (Pid × Nat))
    (pid : Pid) (a : Answers) (hnd : (mkeys subs).Nodup) (hmem : (pid, a) ∈ subs) :
    mget (subs.foldl (scoreStep counts cat) rs) pid
      = some ((mget rs pid).getD 0
          + (let norm := normalizeAnswer (mget a cat)
             if norm = "" then 0
             else if 2 ≤ (mget counts norm).getD 0 then 10 else 20)) := by
  induction subs generalizing rs with
  | nil => simp at hmem
  | cons p rest ih =>
      simp only [mkeys, List.map_cons, List.nodup_cons] at hnd
      rcases List.mem_cons.mp hmem with h | h
      · subst h
        have hnot : pid ∉ mkeys rest := by simpa [mkeys] using hnd.1
        rw [List.foldl_cons, scoreFold_not_mem rest counts cat _ pid hnot]
        simp [scoreStep, mget_mset]
      · have hpid : p.1 ≠ pid := by
          intro he
          exact hnd.1 (he ▸ List.mem_map.mpr ⟨(pid, a), h, rfl⟩)
        have hstep : mget (scoreStep counts cat rs p) pid = mget rs pid := by
          simp only [scoreStep, mget_mset]
          rw [if_neg hpid]
        rw [List.foldl_cons, ih _ hnd.2 h, hstep]

/-- One category pass of `computeRoundScores` adds `catPoints` for a
submitted player. -/
theorem catStep_mget (subs : List (Pid × Answers)) (rs : List (Pid × Nat))
    (cat : String) (pid : Pid) (a : Answers)
    (hnd : (mkeys subs).Nodup) (hmem : (pid, a) ∈ subs) :
    mget (catStep subs rs cat) pid
      = some ((mget rs pid).getD 0 + catPoints subs cat a) := by
  rw [catStep, scoreFold_mem subs _ cat rs pid a hnd hmem]
  by_cases hemp : normalizeAnswer (mget a cat) = ""
  · simp [catPoints, hemp]
  · rw [catPoints]
    simp only [hemp, if_neg]
    rw [countsFold_getD subs cat [] _ hemp]
    simp [mget]

/-- One category pass does not touch ids outside the submission keys. -/
theorem catStep_not_mem (subs : List (Pid × Answers)) (rs : List (Pid × Nat))
    (cat : String) (pid : Pid) (h : pid ∉ mkeys subs) :
    mget (catStep subs rs cat) pid = mget rs pid :=
  scoreFold_not_mem subs _ cat rs pid h

/-- The initialization loop gives every submitted player the entry `0`. -/
theorem mget_initScores (subs : List (Pid × Answers)) (pid : Pid) :
    mget (initScores subs) pid = if pid ∈ mkeys subs then some 0 else none := by
  suffices h : ∀ acc : List (Pid × Nat),
      mget (subs.foldl (fun acc p => mset acc p.1 0) acc) pid
        = if pid ∈ mkeys subs then some 0 else mget acc pid by
    simpa [initScores] using h []
  induction subs with
  | nil => intro acc; simp [mkeys]
  | cons p rest ih =>
      intro acc
      rw [List.foldl_cons, ih]
      simp only [mkeys, List.map_cons, List.mem_cons]
      by_cases hmem : pid ∈ List.map Prod.fst rest
      · simp [mkeys, hmem]
      · by_cases hp : p.1 = pid
        · simp [mkeys, hmem, hp, mget_mset]
        · have hne : ¬ pid = p.1 := fun he => hp he.symm
          simp [mkeys, hmem, hne, hp, mget_mset]

/-- The category fold accumulates the per-category points of one player. -/
theorem catsFold_mget (cats : List String) (subs : List (Pid × Answers))
    (rs : List (Pid × Nat)) (pid : Pid) (a : Answers) (s : Nat)
    (hnd : (mkeys subs).Nodup) (hmem : (pid, a) ∈ subs)
    (hrs : mget rs pid = some s) :
    mget (cats.foldl (catStep subs) rs) pid
      = some (s + (cats.map (fun cat => catPoints subs cat a)).sum) := by
  induction cats generalizing rs s with
  | nil => simpa using hrs
  | cons c cs ih =>
      rw [List.foldl_cons]
      have h1 : mget (catStep subs rs c) pid = some (s + catPoints subs c a) := by
        rw [catStep_mget subs rs c pid a hnd hmem, hrs]
        rfl
      rw [ih _ _ h1]
      simp [Nat.add_assoc]

/-- `computeRoundScores` maps every submitted player to the sum of their
per-category points. -/
theorem computeRoundScores_mget (subs : List (Pid × Answers))
    (cats : List String) (pid : Pid) (a : Answers)
    (hnd : (mkeys subs).Nodup) (ha : mget subs pid = some a) :
    mget (computeRoundScores subs cats) pid
      = some ((cats.map (fun cat => catPoints subs cat a)).sum) := by
  have hmem : (pid, a) ∈ subs := mem_of_mget_eq_some ha
  have h0 : mget (initScores subs) pid = some 0 := by
    rw [mget_initScores]
    simp [mem_keys_of_mget_eq_some ha]
  simpa using catsFold_mget cats subs _ pid a 0 hnd hmem h0

/-- `computeRoundScores` has no entry for a player without a submission. -/
theorem computeRoundScores_mget_none (subs : List (Pid × Answers))
    (cats : List String) (pid : Pid) (h : pid ∉ mkeys subs) :
    mget (computeRoundScores subs cats) pid = none := by
  rw [computeRoundScores]
  suffices hfold : ∀ rs : List (Pid × Nat),
      mget (cats.foldl (catStep subs) rs) pid = mget rs pid by
    rw [hfold, mget_initScores]
    simp [h]
  induction cats with
  | nil => intro rs; rfl
  | cons c cs ih =>
      intro rs
      rw [List.foldl_cons, ih, catStep_not_mem subs rs c pid h]

/-! ## Claim theorems: scoring -/

/-- **C1.**  For every submission mapping (nodup keys, as a JS `Map`
guarantees) and every ordered category list, each submitted player's round
total is the sum over the categories of that category's points: the raw
answer is normalized (`trim` then case-fold); an empty normalized answer
scores 0 (and, being excluded from `countNorm`, contributes to no other
player's tally); a non-empty normalized answer that is unique among the
normalized answers of that category scores 20; one shared by two or more
players scores 10. -/
theorem computeRoundScores_unique20_shared10
    (subs : List (Pid × Answers)) (cats : List String) (pid : Pid) (a : Answers)
    (hnd : (mkeys subs).Nodup) (ha : mget subs pid = some a) :
    mget (computeRoundScores subs cats) pid
      = some ((cats.map (fun cat =>
          let norm := normalizeAnswer (mget a cat)
          if norm = "" then 0
          else if countNorm subs cat norm = 1 then 20 else 10)).sum) := by
  rw [computeRoundScores_mget subs cats pid a hnd ha]
  have hmem : (pid, a) ∈ subs := mem_of_mget_eq_some ha
  have hcp : (fun cat => catPoints subs cat a)
      = fun cat =>
          let norm := normalizeAnswer (mget a cat)
          if norm = "" then 0
          else if countNorm subs cat norm = 1 then 20 else 10 := by
    funext cat
    simp only [catPoints]
    by_cases hemp : normalizeAnswer (mget a cat) = ""
    · simp [hemp]
    · have hpos : 1 ≤ countNorm subs cat (normalizeAnswer (mget a cat)) := by
        have : 0 < countNorm subs cat (normalizeAnswer (mget a cat)) := by
          rw [countNorm, List.countP_pos_iff]
          exact ⟨(pid, a), hmem, by simp⟩
        omega
      rw [if_neg hemp, if_neg hemp]
      by_cases hone : countNorm subs cat (normalizeAnswer (mget a cat)) = 1
      · rw [if_pos hone, if_neg (by omega)]
      · rw [if_neg hone, if_pos (by omega)]
  rw [hcp]

/-- Witness for C1: `Red` and `red ` normalize to the same answer; their
count is 2, so player `A` gets the shared award `10`. -/
theorem computeRoundScores_unique20_shared10_witness :
    mget (computeRoundScores
      [("A", [("color", "Red")]), ("B", [("color", "red ")]), ("C", [("color", "")])]
      ["color"]) "A" = some 10 := by
  rw [computeRoundScores_unique20_shared10 _ _ _ [("color", "Red")]
    (by decide) (by decide)]
  decide

/-- **C8.**  The scoring engine is a deterministic pure function of its two
arguments, and is order-independent: permuting the submission entries or the
category list yields the same per-player totals. -/
theorem computeRoundScores_order_independent
    (subs₁ subs₂ : List (Pid × Answers)) (cats₁ cats₂ : List String)
    (hs : subs₁.Perm subs₂) (hc : cats₁.Perm cats₂)
    (hnd : (mkeys subs₁).Nodup) (pid : Pid) :
    mget (computeRoundScores subs₁ cats₁) pid
      = mget (computeRoundScores subs₂ cats₂) pid := by
  have hnd₂ : (mkeys subs₂).Nodup := ((hs.map Prod.fst).nodup_iff).mp hnd
  cases hget : mget subs₁ pid with
  | none =>
      have h1 : pid ∉ mkeys subs₁ := by
        intro hmem
        have hsome := mget_isSome_of_mem_keys hmem
        rw [hget] at hsome
        exact Bool.noConfusion hsome
      have h2 : pid ∉ mkeys subs₂ :=
        fun hmem => h1 (((hs.map Prod.fst).mem_iff).mpr hmem)
      rw [computeRoundScores_mget_none _ _ _ h1,
        computeRoundScores_mget_none _ _ _ h2]
  | some a =>
      have hget₂ : mget subs₂ pid = some a := by
        rw [← mget_perm hs hnd pid, hget]
      rw [computeRoundScores_mget _ _ _ _ hnd hget,
        computeRoundScores_mget _ _ _ _ hnd₂ hget₂]
      have hcp : (fun cat => catPoints subs₁ cat a)
          = fun cat => catPoints subs₂ cat a := by
        funext cat
        simp only [catPoints, countNorm, hs.countP_eq]
      rw [hcp]
      exact congrArg _ ((hc.map _).sum_eq)

/-- Witness for C8 at a concrete permutation of players and categories. -/
theorem computeRoundScores_order_independent_witness :
    mget (computeRoundScores [("A", [("x", "p")]), ("B", [("x", "q")])] ["x", "y"]) "A"
      = mget (computeRoundScores [("B", [("x", "q")]), ("A", [("x", "p")])] ["y", "x"]) "A" :=
  computeRoundScores_order_independent _ _ _ _ (by decide) (by decide) (by decide) "A"

/-! ## State-machine lemmas -/

/-- Folding round scores into `totalScores` never lowers an entry. -/
theorem foldTotals_mono (rs ts : List (Pid × Nat)) (pid : Pid) :
    (mget ts pid).getD 0 ≤ (mget (foldTotals ts rs) pid).getD 0 := by
  induction rs generalizing ts with
  | nil => exact Nat.le_refl _
  | cons p rest ih =>
      have hstep : (mget ts pid).getD 0
          ≤ (mget (mset ts p.1 ((mget ts p.1).getD 0 + p.2)) pid).getD 0 := by
        rw [mget_mset]
        by_cases hp : p.1 = pid
        · subst hp
          simp
        · rw [if_neg hp]
      exact le_trans hstep (ih _)

/-- `endRound` on a playing room, unfolded. -/
theorem endRound_eq_of_playing (r : Room) (h : r.status = "playing") :
    endRound r
      = { r with
          status := "lobby"
          endsAt := none
          totalScores :=
            foldTotals r.totalScores
              (computeRoundScores r.submissions r.categories) } := by
  rw [endRound, if_neg (by simp [h])]

/-! ## Claim theorems: round close (C2, C3, C4) -/

/-- Counterexample for C2: when a round closes, the room's status becomes
`"lobby"` directly; there is no `"review"` status in the code. -/
theorem endRound_status_not_review :
    (endRound sampleRoom).status = "lobby"
    ∧ (endRound sampleRoom).status ≠ "review" := by decide

/-- **C2 (amended).**  When a round closes, the room's status becomes
`"lobby"` (not `"review"`), the deadline is cleared, no further submissions
are accepted (a submit is rejected with `NOT_PLAYING` and changes nothing),
the round's scores are folded into `totalScores` without lowering any entry,
and the host can start a new round directly (no separate advance step
exists). -/
theorem endRound_closes_to_lobby (r : Room) (sid : Pid) (a : Answers)
    (h : r.status = "playing") :
    (endRound r).status = "lobby"
    ∧ (endRound r).endsAt = none
    ∧ submitRoom (endRound r) sid a = (endRound r, Res.notPlaying)
    ∧ ∀ pid : Pid, (mget r.totalScores pid).getD 0
        ≤ (mget (endRound r).totalScores pid).getD 0 := by
  have he := endRound_eq_of_playing r h
  refine ⟨by rw [he], by rw [he], ?_, ?_⟩
  · have hst : (endRound r).status = "lobby" := by rw [he]
    rw [submitRoom, if_pos (by rw [hst]; decide)]
  · intro pid
    rw [he]
    exact foldTotals_mono _ _ pid

/-- Witness for C2 (amended) at the concrete playing room. -/
theorem endRound_closes_to_lobby_witness :
    (endRound sampleRoom).status = "lobby"
    ∧ (endRound sampleRoom).endsAt = none
    ∧ submitRoom (endRound sampleRoom) "x" [("city", "a")]
        = (endRound sampleRoom, Res.notPlaying)
    ∧ (mget sampleRoom.totalScores "h").getD 0
        ≤ (mget (endRound sampleRoom).totalScores "h").getD 0 := by
  obtain ⟨h1, h2, h3, h4⟩ :=
    endRound_closes_to_lobby sampleRoom "x" [("city", "a")] (by decide)
  exact ⟨h1, h2, h3, h4 "h"⟩

/-- Counterexample for C3: a submission that makes `submissions.size` equal
`players.size` does **not** close the round — the room stays `"playing"`
with its deadline set (the code has no all-submitted early exit). -/
theorem submit_all_players_no_autoclose :
    ((submitRoom sampleRoom "h" [("city", "x")]).1.submissions.length
        = (submitRoom sampleRoom "h" [("city", "x")]).1.players.length)
    ∧ (submitRoom sampleRoom "h" [("city", "x")]).1.status = "playing"
    ∧ (submitRoom sampleRoom "h" [("city", "x")]).1.endsAt ≠ none := by decide

/-- **C3 (amended).**  The round closes when the timer fires or when the
host ends it; there is no all-submitted early close.  Closure is idempotent:
`endRound` against a room that is not playing (e.g. a redundant timer fire
after the round was already closed) is a no-op leaving the room unchanged,
and closing an already-closed round changes nothing. -/
theorem endRound_close_once (r : Room) :
    (r.status ≠ "playing" → endRound r = r)
    ∧ endRound (endRound r) = endRound r := by
  have hnp : ∀ s : Room, s.status ≠ "playing" → endRound s = s := by
    intro s hs
    rw [endRound, if_pos hs]
  refine ⟨hnp r, ?_⟩
  by_cases h : r.status = "playing"
  · have hst : (endRound r).status = "lobby" := by
      rw [endRound_eq_of_playing r h]
    exact hnp _ (by rw [hst]; decide)
  · rw [hnp r h]
    exact hnp r h

/-- Witness for C3 (amended): a lobby room is untouched by `endRound`, and
closing the closed `sampleRoom` again changes nothing. -/
theorem endRound_close_once_witness :
    endRound (freshRoom "AB2CD") = freshRoom "AB2CD"
    ∧ endRound (endRound sampleRoom) = endRound sampleRoom :=
  ⟨(endRound_close_once (freshRoom "AB2CD")).1 (by decide),
   (endRound_close_once sampleRoom).2⟩

/-- Counterexample for C4: `endRound` moves the room out of `"playing"` but
never calls `clearTimeout`, so the stored timer handle stays armed — the
claimed equivalence `status == playing ⇔ timer armed` fails after a host
`round:end`. -/
theorem endRound_leaves_timer_armed :
    (endRound sampleRoom).status ≠ "playing"
    ∧ (endRound sampleRoom).timer = true := by decide

/-- **C4 (amended).**  After every room operation, `status == "playing"` iff
`endsAt` is non-null; `startRound` arms the timer, but `endRound` does not
disarm it (only the next `startRound`, or room destruction, clears the
handle). -/
theorem statusDeadlineInv_preserved (r : Room) (c : String) (sid : Pid)
    (name : String) (d : Option Nat) (l : String) (now : Nat) (a : Answers)
    (hInv : statusDeadlineInv r) :
    statusDeadlineInv (freshRoom c)
    ∧ statusDeadlineInv (startRound r d l now)
    ∧ statusDeadlineInv (endRound r)
    ∧ statusDeadlineInv (addPlayer r sid name)
    ∧ statusDeadlineInv (submitRoom r sid a).1
    ∧ statusDeadlineInv (disconnectRoom r sid)
    ∧ (startRound r d l now).timer = true := by
  refine ⟨?_, ?_, ?_, ?_, ?_, ?_, rfl⟩
  · simp [statusDeadlineInv, freshRoom]
  · simp [statusDeadlineInv, startRound]
  · by_cases h : r.status = "playing"
    · rw [endRound_eq_of_playing r h]
      simp [statusDeadlineInv]
    · rw [endRound, if_pos h]
      exact hInv
  · simpa [statusDeadlineInv, addPlayer] using hInv
  · by_cases h : r.status ≠ "playing"
    · rw [submitRoom, if_pos h]
      exact hInv
    · rw [submitRoom, if_neg h]
      simpa [statusDeadlineInv] using hInv
  · simp only [disconnectRoom]
    split <;> simpa [statusDeadlineInv] using hInv

/-- Witness for C4 (amended) at the concrete playing room. -/
theorem statusDeadlineInv_preserved_witness :
    statusDeadlineInv (startRound sampleRoom none "ل" 0)
    ∧ statusDeadlineInv (endRound sampleRoom) := by
  obtain ⟨-, h2, h3, -, -, -, -⟩ :=
    statusDeadlineInv_preserved sampleRoom "X" "x" "N" none "ل" 0 []
      (by simp only [statusDeadlineInv]; decide)
  exact ⟨h2, h3⟩

/-! ## Claim theorems: start and submit gating (C5, C6) -/

/-- Counterexample for C5: a host `round:start` while the room is already
`"playing"` is **accepted** and restarts the round (the handler has no
status check): the result is `ok` and the round counter advances. -/
theorem start_while_playing_restarts :
    (roundStartHandler sampleRooms "h" "AB2CD" none "ل" 5000).2 = Res.ok
    ∧ (mget (roundStartHandler sampleRooms "h" "AB2CD" none "ل" 5000).1
        "AB2CD").map Room.round = some 2
    ∧ sampleRoom.status = "playing" := by decide

/-- **C5 (amended).**  A `round:start` against an unknown (normalized) code
yields `ROOM_NOT_FOUND` and a request from a non-host yields `NOT_HOST`,
both leaving the registry unchanged (never a crash, never a silent no-op);
but a host request is accepted regardless of status — a start while
`"playing"` restarts the round (clearing submissions and incrementing
`round`) rather than being rejected. -/
theorem roundStart_outcomes (rooms : Rooms) (sid : Pid) (code : String)
    (d : Option Nat) (l : String) (now : Nat) :
    (mget rooms (normCode code) = none →
      roundStartHandler rooms sid code d l now = (rooms, Res.roomNotFound))
    ∧ (∀ room, mget rooms (normCode code) = some room →
        room.hostSocketId ≠ some sid →
        roundStartHandler rooms sid code d l now = (rooms, Res.notHost))
    ∧ (∀ room, mget rooms (normCode code) = some room →
        room.hostSocketId = some sid →
        roundStartHandler rooms sid code d l now
          = (mset rooms (normCode code) (startRound room d l now), Res.ok)
        ∧ (startRound room d l now).status = "playing"
        ∧ (startRound room d l now).submissions = []
        ∧ (startRound room d l now).round = room.round + 1) := by
  refine ⟨?_, ?_, ?_⟩
  · intro h
    simp [roundStartHandler, h]
  · intro room hroom hhost
    simp [roundStartHandler, hroom, hhost]
  · intro room hroom hhost
    refine ⟨?_, rfl, rfl, rfl⟩
    simp [roundStartHandler, hroom, hhost]

/-- Witness for C5 (amended): the three outcomes at concrete inputs. -/
theorem roundStart_outcomes_witness :
    roundStartHandler [] "h" "ZZZZZ" none "ل" 0 = ([], Res.roomNotFound)
    ∧ roundStartHandler sampleRooms "x" "AB2CD" none "ل" 0
        = (sampleRooms, Res.notHost)
    ∧ roundStartHandler sampleRooms "h" "AB2CD" none "ل" 0
        = (mset sampleRooms (normCode "AB2CD")
            (startRound sampleRoom none "ل" 0), Res.ok) :=
  ⟨(roundStart_outcomes [] "h" "ZZZZZ" none "ل" 0).1 (by decide),
   (roundStart_outcomes sampleRooms "x" "AB2CD" none "ل" 0).2.1 sampleRoom
     (by decide) (by decide),
   ((roundStart_outcomes sampleRooms "h" "AB2CD" none "ل" 0).2.2 sampleRoom
     (by decide) (by decide)).1⟩

/-- Counterexample for C6: the `submit` handler never checks membership in
`players` — a submit from the non-player `x` while the room is playing is
accepted and stored, so `submissions` keys are not a subset of `players`
keys afterwards. -/
theorem submit_nonplayer_accepted :
    (submitRoom sampleRoom "x" [("city", "a")]).2 = Res.ok
    ∧ mhas (submitRoom sampleRoom "x" [("city", "a")]).1.submissions "x" = true
    ∧ mhas sampleRoom.players "x" = false := by decide

/-- **C6 (amended).**  A submit while `status != "playing"` (or against an
unknown room) is rejected as a no-op signaling `NOT_PLAYING`
(`ROOM_NOT_FOUND`), leaving all room and registry state unchanged; but
player membership is not checked, so while playing a non-player submit is
accepted and the subset invariant `submissions ⊆ players` can be broken. -/
theorem submit_rejected_unless_playing (rooms : Rooms) (room : Room)
    (sid : Pid) (code : String) (a : Answers)
    (hroom : mget rooms (normCode code) = some room)
    (h : room.status ≠ "playing") :
    submitRoom room sid a = (room, Res.notPlaying)
    ∧ submitHandler rooms sid code a = (rooms, Res.notPlaying) := by
  have h1 : submitRoom room sid a = (room, Res.notPlaying) := by
    rw [submitRoom, if_pos h]
  refine ⟨h1, ?_⟩
  simp [submitHandler, hroom, h1]

/-- Witness for C6 (amended): a submit against a lobby room is rejected. -/
theorem submit_rejected_unless_playing_witness :
    submitRoom (freshRoom "AB2CD") "h" [("city", "a")]
      = (freshRoom "AB2CD", Res.notPlaying)
    ∧ submitHandler [("AB2CD", freshRoom "AB2CD")] "h" "AB2CD" [("city", "a")]
      = ([("AB2CD", freshRoom "AB2CD")], Res.notPlaying) :=
  submit_rejected_unless_playing [("AB2CD", freshRoom "AB2CD")]
    (freshRoom "AB2CD") "h" "AB2CD" [("city", "a")] (by decide) (by decide)

/-! ## Submission idempotence (C7) -/

theorem mset_length_of_isSome {α β : Type} [DecidableEq α]
    (m : List (α × β)) (k : α) (v : β) (h : (mget m k).isSome) :
    (mset m k v).length = m.length := by
  induction m with
  | nil => simp [mget] at h
  | cons p rest ih =>
      obtain ⟨a, b⟩ := p
      by_cases ha : a = k
      · simp [mset, ha]
      · simp only [mget, if_neg ha] at h
        simp [mset, ha, ih h]

theorem mkeys_mset {α β : Type} [DecidableEq α] (m : List (α × β)) (k : α)
    (v : β) : mkeys (mset m k v)
      = if k ∈ mkeys m then mkeys m else mkeys m ++ [k] := by
  induction m with
  | nil => simp [mset, mkeys]
  | cons p rest ih =>
      obtain ⟨a, b⟩ := p
      by_cases ha : a = k
      · subst ha
        simp [mset, mkeys]
      · have hne : ¬ k = a := fun he => ha he.symm
        simp only [mset, if_neg ha, mkeys, List.map_cons] at ih ⊢
        rw [ih]
        by_cases hmem : k ∈ List.map Prod.fst rest
        · rw [if_pos hmem, if_pos (by simp [hmem])]
        · rw [if_neg hmem, if_neg (by simp [hmem, hne])]
          rfl

theorem mkeys_mset_nodup {α β : Type} [DecidableEq α] (m : List (α × β))
    (k : α) (v : β) (hnd : (mkeys m).Nodup) : (mkeys (mset m k v)).Nodup := by
  rw [mkeys_mset]
  by_cases hmem : k ∈ mkeys m
  · rw [if_pos hmem]
    exact hnd
  · rw [if_neg hmem, ← List.concat_eq_append]
    exact List.Nodup.concat hmem hnd

theorem filter_key_eq_nil {α β : Type} [DecidableEq α] (m : List (α × β))
    (k : α) (h : k ∉ mkeys m) :
    m.filter (fun p => p.1 == k) = [] := by
  rw [List.filter_eq_nil_iff]
  intro p hp
  simp only [beq_iff_eq]
  intro he
  exact h (he ▸ List.mem_map.mpr ⟨p, hp, rfl⟩)

theorem filter_key_mset {α β : Type} [DecidableEq α] (m : List (α × β))
    (k : α) (v : β) (hnd : (mkeys m).Nodup) :
    (mset m k v).filter (fun p => p.1 == k) = [(k, v)] := by
  induction m with
  | nil => simp [mset]
  | cons p rest ih =>
      obtain ⟨a, b⟩ := p
      simp only [mkeys, List.map_cons, List.nodup_cons] at hnd
      by_cases ha : a = k
      · subst ha
        have hrest : rest.filter (fun p => p.1 == a) = [] :=
          filter_key_eq_nil rest a (by simpa [mkeys] using hnd.1)
        simp [mset, List.filter_cons, hrest]
      · have hb : ((a, b).1 == k) = false := by simp [ha]
        simp only [mset, if_neg ha, List.filter_cons, hb]
        exact ih hnd.2

/-- **C7.**  Submitting is idempotent per player within a round: a second
submit from the same connection replaces the first in place — exactly one
stored submission remains for that connection (the latest), no duplicate
entry is created, and `submissions.size` is unchanged by the second
submit. -/
theorem submit_idempotent (room : Room) (sid : Pid) (a₁ a₂ : Answers)
    (hst : room.status = "playing") (hnd : (mkeys room.submissions).Nodup) :
    mget ((submitRoom (submitRoom room sid a₁).1 sid a₂).1).submissions sid
        = some (room.categories.map (fun cat => (cat, (mget a₂ cat).getD "")))
    ∧ ((submitRoom (submitRoom room sid a₁).1 sid a₂).1).submissions.filter
        (fun p => p.1 == sid)
        = [(sid, room.categories.map (fun cat => (cat, (mget a₂ cat).getD "")))]
    ∧ ((submitRoom (submitRoom room sid a₁).1 sid a₂).1).submissions.length
        = ((submitRoom room sid a₁).1).submissions.length := by
  have hs1 : ((submitRoom room sid a₁).1).submissions
      = mset room.submissions sid
          (room.categories.map (fun cat => (cat, (mget a₁ cat).getD ""))) := by
    simp [submitRoom, hst]
  have hss : ((submitRoom (submitRoom room sid a₁).1 sid a₂).1).submissions
      = mset (mset room.submissions sid
          (room.categories.map (fun cat => (cat, (mget a₁ cat).getD ""))))
          sid (room.categories.map (fun cat => (cat, (mget a₂ cat).getD ""))) := by
    simp [submitRoom, hst]
  refine ⟨?_, ?_, ?_⟩
  · rw [hss, mget_mset, if_pos rfl]
  · rw [hss]
    exact filter_key_mset _ sid _ (mkeys_mset_nodup _ sid _ hnd)
  · rw [hss, hs1]
    exact mset_length_of_isSome _ sid _ (by rw [mget_mset, if_pos rfl]; rfl)

/-- Witness for C7 at the concrete playing room. -/
theorem submit_idempotent_witness :
    mget ((submitRoom (submitRoom sampleRoom "h" [("city", "p")]).1 "h"
        [("city", "q")]).1).submissions "h"
        = some (sampleRoom.categories.map
            (fun cat => (cat, (mget [("city", "q")] cat).getD "")))
    ∧ ((submitRoom (submitRoom sampleRoom "h" [("city", "p")]).1 "h"
        [("city", "q")]).1).submissions.length
        = ((submitRoom sampleRoom "h" [("city", "p")]).1).submissions.length := by
  obtain ⟨h1, -, h3⟩ :=
    submit_idempotent sampleRoom "h" [("city", "p")] [("city", "q")]
      (by decide) (by decide)
  exact ⟨h1, h3⟩

/-! ## Disconnect lemmas -/

theorem mkeys_mdel {α β : Type} [DecidableEq α] (m : List (α × β)) (k : α) :
    mkeys (mdel m k) = (mkeys m).filter (fun x => x ≠ k) := by
  induction m with
  | nil => rfl
  | cons p rest ih =>
      obtain ⟨a, b⟩ := p
      simp only [mkeys, ne_eq, decide_not] at ih ⊢
      by_cases ha : a = k
      · simp [mdel, mkeys, ha, ih, decide_not]
      · simp [mdel, mkeys, ha, ih, decide_not]

theorem disconnectRoom_fields (room : Room) (sid : Pid) :
    (disconnectRoom room sid).players = mdel room.players sid
    ∧ (disconnectRoom room sid).submissions = mdel room.submissions sid
    ∧ (disconnectRoom room sid).totalScores = mdel room.totalScores sid
    ∧ (disconnectRoom room sid).timer = room.timer
    ∧ (disconnectRoom room sid).status = room.status := by
  by_cases h : room.hostSocketId = some sid <;>
    simp [disconnectRoom, h]

theorem disconnectRoom_host (room : Room) (sid : Pid) :
    (disconnectRoom room sid).hostSocketId
      = if room.hostSocketId = some sid
        then (mdel room.players sid).head?.map Prod.fst
        else room.hostSocketId := by
  by_cases h : room.hostSocketId = some sid <;>
    simp [disconnectRoom, h]

/-- Rooms whose code is unknown stay unknown after a disconnect sweep. -/
theorem mget_disconnectHandler_not_mem (rooms : Rooms) (sid : Pid)
    (code : String) (h : code ∉ mkeys rooms) :
    mget (disconnectHandler rooms sid).1 code = none := by
  induction rooms with
  | nil => rfl
  | cons p rest ih =>
      obtain ⟨c, rm⟩ := p
      simp only [mkeys, List.map_cons, List.mem_cons] at h
      push_neg at h
      have hc : ¬ c = code := fun he => h.1 he.symm
      by_cases hin : mhas rm.players sid
      · by_cases hemp : (disconnectRoom rm sid).players.isEmpty
        · simp [disconnectHandler, hin, hemp, ih h.2]
        · simp [disconnectHandler, hin, hemp, mget, hc, ih h.2]
      · simp [disconnectHandler, hin, mget, hc, ih h.2]

/-- What the disconnect sweep leaves at a known code: untouched if the
socket is not in that room, the updated room if players remain, nothing if
the room was destroyed. -/
theorem mget_disconnectHandler (rooms : Rooms) (sid : Pid) (code : String)
    (room : Room) (hnd : (mkeys rooms).Nodup)
    (hroom : mget rooms code = some room) :
    mget (disconnectHandler rooms sid).1 code
      = if mhas room.players sid then
          (if (disconnectRoom room sid).players.isEmpty then none
           else some (disconnectRoom room sid))
        else some room := by
  induction rooms with
  | nil => simp [mget] at hroom
  | cons p rest ih =>
      obtain ⟨c, rm⟩ := p
      simp only [mkeys, List.map_cons, List.nodup_cons] at hnd
      by_cases hc : c = code
      · have hrm : rm = room := by
          rw [mget, if_pos hc] at hroom
          exact Option.some.inj hroom
        subst hrm
        subst hc
        have hrest : c ∉ mkeys rest := by simpa [mkeys] using hnd.1
        by_cases hin : mhas rm.players sid
        · by_cases hemp : (disconnectRoom rm sid).players.isEmpty
          · simp [disconnectHandler, hin, hemp,
              mget_disconnectHandler_not_mem rest sid c hrest]
          · simp [disconnectHandler, hin, hemp, mget]
        · simp [disconnectHandler, hin, mget]
      · have hroom' : mget rest code = some room := by
          rw [mget, if_neg hc] at hroom
          exact hroom
        by_cases hin : mhas rm.players sid
        · by_cases hemp : (disconnectRoom rm sid).players.isEmpty
          · simp [disconnectHandler, hin, hemp, ih hnd.2 hroom']
          · simp [disconnectHandler, hin, hemp, mget, hc, ih hnd.2 hroom']
        · simp [disconnectHandler, hin, mget, hc, ih hnd.2 hroom']

/-- A destroyed room with a stored timer handle has its code recorded among
the `clearTimeout` calls. -/
theorem disconnectHandler_cleared (rooms : Rooms) (sid : Pid) (code : String)
    (room : Room) (hroom : mget rooms code = some room)
    (hin : mhas room.players sid = true)
    (hemp : (disconnectRoom room sid).players.isEmpty = true)
    (htimer : (disconnectRoom room sid).timer = true) :
    code ∈ (disconnectHandler rooms sid).2 := by
  induction rooms with
  | nil => simp [mget] at hroom
  | cons p rest ih =>
      obtain ⟨c, rm⟩ := p
      by_cases hc : c = code
      · have hrm : rm = room := by
          rw [mget, if_pos hc] at hroom
          exact Option.some.inj hroom
        subst hrm
        subst hc
        simp [disconnectHandler, hin, hemp, htimer]
      · have hroom' : mget rest code = some room := by
          rw [mget, if_neg hc] at hroom
          exact hroom
        by_cases hin2 : mhas rm.players sid
        · by_cases hemp2 : (disconnectRoom rm sid).players.isEmpty
          · simp only [disconnectHandler, hin2, hemp2, if_pos, if_true]
            simp [List.mem_append, ih hroom']
          · simp [disconnectHandler, hin2, hemp2, ih hroom']
        · simp [disconnectHandler, hin2, ih hroom']

/-! ## Claim theorems: disconnect (C9) and totals (C10) -/

/-- **C9.**  A disconnect removes the departing socket from `players` and
from the round's `submissions`, keeps every other player (in order); if the
departing socket was the host, the new host is deterministically the first
remaining player key (never leaving the room host-less while a player
remains); and if no player remains, the room is destroyed within the same
operation — its code disappears from the registry and its stored timer
handle is cleared — while otherwise the updated room stays registered. -/
theorem disconnect_spec (rooms : Rooms) (sid : Pid) (code : String)
    (room : Room) (hnd : (mkeys rooms).Nodup)
    (hroom : mget rooms code = some room)
    (hin : mhas room.players sid = true) :
    mget (disconnectRoom room sid).players sid = none
    ∧ mget (disconnectRoom room sid).submissions sid = none
    ∧ mkeys (disconnectRoom room sid).players
        = (mkeys room.players).filter (fun k => k ≠ sid)
    ∧ (room.hostSocketId = some sid →
        (disconnectRoom room sid).hostSocketId
          = (disconnectRoom room sid).players.head?.map Prod.fst
        ∧ ((disconnectRoom room sid).players ≠ [] →
            (disconnectRoom room sid).hostSocketId ≠ none))
    ∧ ((disconnectRoom room sid).players.isEmpty = true →
        mget (disconnectHandler rooms sid).1 code = none
        ∧ ((disconnectRoom room sid).timer = true →
            code ∈ (disconnectHandler rooms sid).2))
    ∧ ((disconnectRoom room sid).players.isEmpty = false →
        mget (disconnectHandler rooms sid).1 code
          = some (disconnectRoom room sid)) := by
  obtain ⟨hpl, hsub, -, -, -⟩ := disconnectRoom_fields room sid
  refine ⟨?_, ?_, ?_, ?_, ?_, ?_⟩
  · rw [hpl, mget_mdel, if_pos rfl]
  · rw [hsub, mget_mdel, if_pos rfl]
  · rw [hpl, mkeys_mdel]
  · intro hhost
    have hh : (disconnectRoom room sid).hostSocketId
        = (disconnectRoom room sid).players.head?.map Prod.fst := by
      rw [disconnectRoom_host, if_pos hhost, hpl]
    refine ⟨hh, ?_⟩
    intro hne hnone
    rw [hh, Option.map_eq_none'] at hnone
    exact hne (List.head?_eq_none_iff.mp hnone)
  · intro hemp
    refine ⟨?_, ?_⟩
    · rw [mget_disconnectHandler rooms sid code room hnd hroom,
        if_pos hin, if_pos hemp]
    · intro htimer
      exact disconnectHandler_cleared rooms sid code room hroom hin hemp htimer
  · intro hemp
    rw [mget_disconnectHandler rooms sid code room hnd hroom,
      if_pos hin, if_neg (by rw [hemp]; decide)]

/-- Witness for C9: host `h` leaves `roomHB`; `b` stays, becomes host, and
the surviving room remains registered. -/
theorem disconnect_spec_witness :
    mget (disconnectRoom roomHB "h").players "h" = none
    ∧ mget (disconnectRoom roomHB "h").submissions "h" = none
    ∧ (disconnectRoom roomHB "h").hostSocketId
        = (disconnectRoom roomHB "h").players.head?.map Prod.fst
    ∧ mget (disconnectHandler [("AB2CD", roomHB)] "h").1 "AB2CD"
        = some (disconnectRoom roomHB "h") := by
  obtain ⟨h1, h2, -, h4, -, h6⟩ :=
    disconnect_spec [("AB2CD", roomHB)] "h" "AB2CD" roomHB
      (by decide) (by decide) (by decide)
  exact ⟨h1, h2, (h4 (by decide)).1, h6 (by decide)⟩

/-- Counterexample for C10: a departing player's `totalScores` entry is
**deleted** by the disconnect handler, not frozen: `h` leaves with 30
accumulated points and the surviving room no longer has any entry for
`h`. -/
theorem totalScores_deleted_on_disconnect :
    mget roomHB.totalScores "h" = some 30
    ∧ mget (disconnectRoom roomHB "h").totalScores "h" = none
    ∧ mget (disconnectHandler [("AB2CD", roomHB)] "h").1 "AB2CD"
        = some (disconnectRoom roomHB "h") := by decide

/-- **C10 (amended).**  While a player is present their `totalScores` entry
is monotonically non-decreasing — a round close adds the round's
non-negative points, and start/submit/join leave the entry alone — but a
disconnect deletes the departing player's entry outright rather than
freezing it. -/
theorem totalScores_monotone_until_departure (r : Room) (pid sid : Pid)
    (name : String) (d : Option Nat) (l : String) (now : Nat) (a : Answers) :
    (mget r.totalScores pid).getD 0 ≤ (mget (endRound r).totalScores pid).getD 0
    ∧ (startRound r d l now).totalScores = r.totalScores
    ∧ ((submitRoom r sid a).1).totalScores = r.totalScores
    ∧ (mget r.totalScores pid).getD 0
        ≤ (mget (addPlayer r sid name).totalScores pid).getD 0
    ∧ mget (disconnectRoom r pid).totalScores pid = none := by
  refine ⟨?_, rfl, ?_, ?_, ?_⟩
  · by_cases h : r.status = "playing"
    · rw [endRound_eq_of_playing r h]
      exact foldTotals_mono _ _ pid
    · rw [endRound, if_pos h]
  · by_cases h : r.status ≠ "playing"
    · rw [submitRoom, if_pos h]
    · rw [submitRoom, if_neg h]
  · rw [addPlayer]
    by_cases hs : (mget r.totalScores sid).isSome
    · simp only [if_pos hs]
      exact Nat.le_refl _
    · simp only [if_neg hs]
      rw [mget_mset]
      by_cases hp : sid = pid
      · subst hp
        rw [if_pos rfl]
        rw [Option.not_isSome_iff_eq_none] at hs
        simp [hs]
      · rw [if_neg hp]
  · obtain ⟨-, -, hts, -, -⟩ := disconnectRoom_fields r pid
    rw [hts, mget_mdel, if_pos rfl]

end Esmofamil
